import Mathlib

/-!
Verification development for the tikwm media archiver.

This file shallowly embeds the parts of the Go code base that the
specification's claims talk about:

* the `Post` data model (`internal/post.go`, here `part_011`),
* the SQLite history store (`pkg/storage/sqlite/sqlite.go`), including a
  faithful model of SQLite `LIKE` pattern matching (wildcards `%` and `_`,
  ASCII-case-insensitive, no ESCAPE clause),
* the feed pagination, cache and channel layer (`pkg/client/client.go`:
  `userFeedSinceInternal`, `getUserFeed`, `getFeedFromCache`,
  `saveFeedToCache`, `postsToChannel`),
* the per-video reconciliation decision of `processVideoInFeed`,
* the download retry harness `downloadRetrying`,
* the avatar path `ensureAvatar` / `AddAvatar`,
* the process-wide rate limiter (`pkg/ratelimiter/ratelimiter.go`), with a
  model of Go `time.Ticker` semantics (periodic ticks, one-slot channel
  buffer, ticks dropped while the buffer is full).

Go machine integers are modelled as `Int`/`Nat` (no overflow is relevant to
any claim: all sizes are far below 2^63).  Fallible Go functions return
`Option`/`Except`-like results.  Recursions that Go bounds by a counter are
driven by an explicit structural budget equal to the Go bound, so that every
definition is executable.
-/

namespace Tikwm

/-! ## Data model: `Post` (internal package, `Post` struct)

Only the fields consumed by the claims are carried; each corresponds
one-to-one to a field of the Go struct. -/

/-- Embedded `Post` struct (`internal` package).  `images` is non-empty iff
the post is an album.  `size`/`hdSize` are the SD/HD byte sizes reported by
upstream; `play`/`hdplay` the download URLs. -/
structure Post where
  id : String
  videoId : String
  title : String
  play : String
  hdplay : String
  size : Int
  hdSize : Int
  createTime : Int
  authorUniqueId : String
  authorAvatar : String
  images : List String
  deriving DecidableEq, Repr

/-- Go `Post.ID()`: returns `Id`, falling back to `VideoId` when empty. -/
def Post.ID (post : Post) : String :=
  if post.id ≠ "" then post.id else post.videoId

/-- Go `Post.IsAlbum()`: a post is an album iff it has images. -/
def Post.IsAlbum (post : Post) : Bool :=
  post.images.length ≠ 0

/-- Go `Post.IsVideo()`: negation of `IsAlbum`. -/
def Post.IsVideo (post : Post) : Bool :=
  !post.IsAlbum

/-! ## Asset types (Go `AssetType`, a string type) -/

/-- Go `AssetType` is a string (`type AssetType string`); album-photo
downloads smuggle the photo URL through this type, so we keep it a string. -/
abbrev AssetType := String

def AssetHD : AssetType := "hd"
def AssetSD : AssetType := "sd"
def AssetSource : AssetType := "source"
def AssetCoverMedium : AssetType := "cover_medium"
def AssetCoverOrigin : AssetType := "cover_origin"
def AssetCoverDynamic : AssetType := "cover_dynamic"
def AssetAlbumPhoto : AssetType := "album_photo"
def AssetAvatar : AssetType := "avatar"

/-! ## SQLite `LIKE` semantics

SQLite's `LIKE` operator (used by `GetAlbumPhotoCount` and
`GetMissingPostsByAuthor` with parameter-bound patterns and no `ESCAPE`
clause) treats `%` as "any sequence of zero or more characters" and `_` as
"any single character", comparing ASCII letters case-insensitively.  We
embed it as a total executable matcher; the structural budget
`p.length + s.length + 1` strictly exceeds the length of any derivation, so
the truncation case is unreachable. -/

/-- ASCII case folding as SQLite applies it to `LIKE` operands. -/
def sqliteFold (c : Char) : Char :=
  if 'A' ≤ c ∧ c ≤ 'Z' then Char.ofNat (c.toNat + 32) else c

/-- Budgeted core of the `LIKE` matcher (`%` = any run, `_` = any one
character, otherwise a case-folded literal). -/
def likeAux : Nat → List Char → List Char → Bool
  | 0, _, _ => false
  | _ + 1, [], [] => true
  | _ + 1, [], _ :: _ => false
  | n + 1, '%' :: ps, s =>
      likeAux n ps s ||
        (match s with
         | [] => false
         | _ :: s1 => likeAux n ('%' :: ps) s1)
  | n + 1, '_' :: ps, s =>
      match s with
      | [] => false
      | _ :: s1 => likeAux n ps s1
  | n + 1, p :: ps, s =>
      match s with
      | [] => false
      | c :: s1 => sqliteFold p == sqliteFold c && likeAux n ps s1

/-- SQLite `s LIKE pattern` (no ESCAPE clause). -/
def sqlLike (pattern s : String) : Bool :=
  likeAux (pattern.length + s.length + 1) pattern.toList s.toList

/-! ## History store: the `posts` and `avatars` tables

One `PostRow` per row of the `posts` table (schema in `createSchema`).
`TEXT` columns that may be SQL `NULL` are carried as `String` with `""`
standing for `NULL`/empty — the invariants under test only distinguish
empty from non-empty. -/

/-- One row of the `posts` table. -/
structure PostRow where
  id : String
  authorId : String
  createTime : Int
  hasSd : Bool
  hasHd : Bool
  hasSource : Bool
  hasCoverMedium : Bool
  hasCoverOrigin : Bool
  hasCoverDynamic : Bool
  shaSd : String
  shaHd : String
  shaSource : String
  shaCoverMedium : String
  shaCoverOrigin : String
  shaCoverDynamic : String
  downloadedAt : Int
  deriving DecidableEq, Repr

/-- The `posts` table: list of rows (`id` is the primary key; the upsert
below, like SQLite `ON CONFLICT(id)`, updates in place when the id is
already present). -/
abbrev PostsTable := List PostRow

/-- One row of the `avatars` table (composite primary key
`(author_id, sha256)`; `downloadedAt` timestamp). -/
structure AvatarRow where
  authorId : String
  sha256 : String
  downloadedAt : Int
  deriving DecidableEq, Repr

abbrev AvatarsTable := List AvatarRow

/-- The `has`/`sha` column pairs of the `posts` table that
`AddOrUpdateAsset` can target. -/
inductive Col
  | sd
  | hd
  | source
  | coverMedium
  | coverOrigin
  | coverDynamic
  deriving DecidableEq, Repr

/-- Column-pair selection switch of `AddOrUpdateAsset`/`AssetExists`:
`album_photo` piggy-backs on the `hd` columns; any other unlisted asset
type is an error (`none`). -/
def colFor (assetType : AssetType) : Option Col :=
  if assetType = AssetSD then some .sd
  else if assetType = AssetHD then some .hd
  else if assetType = AssetSource then some .source
  else if assetType = AssetCoverMedium then some .coverMedium
  else if assetType = AssetCoverOrigin then some .coverOrigin
  else if assetType = AssetCoverDynamic then some .coverDynamic
  else if assetType = AssetAlbumPhoto then some .hd
  else none

/-- Read the `has_X` column selected by `col`. -/
def PostRow.hasCol (r : PostRow) : Col → Bool
  | .sd => r.hasSd
  | .hd => r.hasHd
  | .source => r.hasSource
  | .coverMedium => r.hasCoverMedium
  | .coverOrigin => r.hasCoverOrigin
  | .coverDynamic => r.hasCoverDynamic

/-- Read the `sha256_X` column selected by `col`. -/
def PostRow.shaCol (r : PostRow) : Col → String
  | .sd => r.shaSd
  | .hd => r.shaHd
  | .source => r.shaSource
  | .coverMedium => r.shaCoverMedium
  | .coverOrigin => r.shaCoverOrigin
  | .coverDynamic => r.shaCoverDynamic

/-- Write `has_X := true` and `sha256_X := sha` for the selected column
pair, leaving every other column of the row unchanged (the single
`UPDATE SET` clause of the upsert). -/
def PostRow.setCol (r : PostRow) (col : Col) (sha : String) (now : Int) : PostRow :=
  match col with
  | .sd => { r with hasSd := true, shaSd := sha, downloadedAt := now }
  | .hd => { r with hasHd := true, shaHd := sha, downloadedAt := now }
  | .source => { r with hasSource := true, shaSource := sha, downloadedAt := now }
  | .coverMedium => { r with hasCoverMedium := true, shaCoverMedium := sha, downloadedAt := now }
  | .coverOrigin => { r with hasCoverOrigin := true, shaCoverOrigin := sha, downloadedAt := now }
  | .coverDynamic => { r with hasCoverDynamic := true, shaCoverDynamic := sha, downloadedAt := now }

/-- A fresh row as the `INSERT` arm of the upsert produces it: every other
`has_X` column takes its schema default `0`, every other `sha256_X` is
`NULL` (empty). -/
def freshRow (postID authorID : String) (createTime : Int) (col : Col) (sha : String)
    (now : Int) : PostRow :=
  PostRow.setCol
    { id := postID, authorId := authorID, createTime := createTime,
      hasSd := false, hasHd := false, hasSource := false,
      hasCoverMedium := false, hasCoverOrigin := false, hasCoverDynamic := false,
      shaSd := "", shaHd := "", shaSource := "",
      shaCoverMedium := "", shaCoverOrigin := "", shaCoverDynamic := "",
      downloadedAt := now } col sha now

/-- Primary-key lookup in the `posts` table. -/
def lookupRow (table : PostsTable) (postID : String) : Option PostRow :=
  table.find? (fun r => r.id = postID)

/-- `AddOrUpdateAsset` (sqlite.go): one `INSERT ... ON CONFLICT(id) DO
UPDATE` statement that sets the selected `has_X` to `1` and `sha256_X` to
the given hash atomically; `none` models the `unknown asset type` error for
asset types outside the switch.  The `wal_checkpoint` that follows it does
not change table contents and is not modelled. -/
def AddOrUpdateAsset (table : PostsTable) (postID authorID : String) (createTime : Int)
    (assetType : AssetType) (sha : String) (now : Int) : Option PostsTable :=
  match colFor assetType with
  | none => none
  | some col =>
      if (lookupRow table postID).isSome then
        some (table.map (fun r => if r.id = postID then r.setCol col sha now else r))
      else
        some (table ++ [freshRow postID authorID createTime col sha now])

/-- `AssetExists` (sqlite.go): read the selected `has_X` column of the row
with the given id; a missing row reads as `false`, an unknown asset type is
an error (`none`). -/
def AssetExists (table : PostsTable) (assetID : String) (assetType : AssetType) :
    Option Bool :=
  match colFor assetType with
  | none => none
  | some col =>
      match lookupRow table assetID with
      | none => some false
      | some r => some (r.hasCol col)

/-- `GetAlbumPhotoCount` (sqlite.go): `SELECT count(*) FROM posts WHERE id
LIKE ?` with the bound pattern `postID + "_%"` — note that `_` is a SQLite
single-character wildcard, not a literal underscore. -/
def GetAlbumPhotoCount (table : PostsTable) (postID : String) : Nat :=
  (table.filter (fun r => sqlLike (postID ++ "_%") r.id)).length

/-- `DeletePost` (sqlite.go): `DELETE FROM posts WHERE id = ?`. -/
def DeletePost (table : PostsTable) (postID : String) : PostsTable :=
  table.filter (fun r => r.id ≠ postID)

/-- Projected record returned by the author queries
(`storage.PostRecord`); `hasCover` is the template's
`(has_cover_medium OR has_cover_origin OR has_cover_dynamic)` alias. -/
structure PostRecord where
  id : String
  authorId : String
  createTime : Int
  hasCover : Bool
  deriving DecidableEq, Repr

/-- Projection of a `posts` row to a `PostRecord`. -/
def PostRow.toRecord (r : PostRow) : PostRecord :=
  { id := r.id, authorId := r.authorId, createTime := r.createTime,
    hasCover := r.hasCoverMedium || r.hasCoverOrigin || r.hasCoverDynamic }

/-- `GetMissingPostsByAuthor` (sqlite.go and
`queries/get_missing_posts_by_author.sql.tpl`): rows of the author whose
`has_hd`/`has_sd` is `0`, restricted by `id NOT LIKE '%_%'` — again with
`_` as the SQLite single-character wildcard.  Asset types other than
`hd`/`sd` are an error (`none`).  Row order follows the table (the query's
`ORDER BY create_time DESC` does not affect which rows are yielded). -/
def GetMissingPostsByAuthor (table : PostsTable) (authorID : String)
    (assetType : AssetType) : Option (List PostRecord) :=
  if assetType = AssetHD then
    some ((table.filter (fun r =>
      r.authorId = authorID ∧ r.hasHd = false ∧ ¬ sqlLike "%_%" r.id)).map PostRow.toRecord)
  else if assetType = AssetSD then
    some ((table.filter (fun r =>
      r.authorId = authorID ∧ r.hasSd = false ∧ ¬ sqlLike "%_%" r.id)).map PostRow.toRecord)
  else none

/-- `AddAvatar` (sqlite.go): `INSERT OR IGNORE INTO avatars` — a row whose
composite key `(author_id, sha256)` is already present leaves the table
unchanged. -/
def AddAvatar (table : AvatarsTable) (authorID sha : String) (now : Int) : AvatarsTable :=
  if table.any (fun r => r.authorId = authorID ∧ r.sha256 = sha) then table
  else table ++ [{ authorId := authorID, sha256 := sha, downloadedAt := now }]

/-- `AvatarExists` (sqlite.go): membership of the composite key. -/
def AvatarExists (table : AvatarsTable) (authorID sha : String) : Bool :=
  table.any (fun r => r.authorId = authorID ∧ r.sha256 = sha)

/-! ## Feed layer (`client.go`: `userFeedSinceInternal`, `getUserFeed`,
`getFeedFromCache`, `saveFeedToCache`, `postsToChannel`) -/

/-- One page returned by `GetUserFeedRaw` (`UserFeed` struct). -/
structure Feed where
  videos : List Post
  cursor : String
  hasMore : Bool
  deriving DecidableEq, Repr

/-- Outcome of one `GetUserFeedRaw` call: success, an upstream rate-limit
error (`(-1)` / `Free Api Limit` / `(429)` in the message), or any other
error. -/
inductive ApiResult
  | ok (feed : Feed)
  | rateLimited
  | err
  deriving DecidableEq

/-- The `While`/`Filter` predicates of `FeedOpt` (after `Defaults()` both
are total Boolean predicates). -/
structure FeedOpt where
  whilePred : Post → Bool
  filterPred : Post → Bool

/-- `WhileAfter(t)`: keeps posts whose create time is strictly after `t`
(epoch seconds). -/
def WhileAfter (t : Int) (post : Post) : Bool :=
  t < post.createTime

/-- The page loop shared by `userFeedSinceInternal` and
`getFeedFromCache`: walk posts in upstream (newest-first) order; the first
post failing `While` stops the walk (second component `true`); posts
failing `Filter` are skipped. -/
def collectPage (opt : FeedOpt) : List Post → List Post × Bool
  | [] => ([], false)
  | v :: vs =>
      if !opt.whilePred v then ([], true)
      else if !opt.filterPred v then collectPage opt vs
      else
        let r := collectPage opt vs
        (v :: r.1, r.2)

/-- Result of a pagination run: the collected posts, the cursors passed to
`GetUserFeedRaw` in request order, and whether the run succeeded. -/
structure FeedRun where
  posts : List Post
  requested : List String
  ok : Bool
  deriving DecidableEq

/-- `userFeedSinceInternal` (client.go).  `fetch` is the upstream
(`GetUserFeedRaw` at a given cursor); the structural `fuel` bounds the
recursion depth (the Go function recurses unboundedly on rate-limit retry;
every theorem below supplies enough fuel for the runs it talks about).
On a rate-limit error with `retry-on-429` the same cursor is retried; on
any other error the partial page list is returned with the error, which
`getUserFeed` turns into a failure of the whole run. -/
def userFeedSinceInternal (fetch : String → ApiResult) (retryOn429 : Bool) (opt : FeedOpt) :
    Nat → String → FeedRun
  | 0, _ => ⟨[], [], false⟩
  | fuel + 1, cursor =>
      match fetch cursor with
      | .rateLimited =>
          if retryOn429 then
            let r := userFeedSinceInternal fetch retryOn429 opt fuel cursor
            ⟨r.posts, cursor :: r.requested, r.ok⟩
          else ⟨[], [cursor], false⟩
      | .err => ⟨[], [cursor], false⟩
      | .ok feed =>
          let c := collectPage opt feed.videos
          if c.2 then ⟨c.1, [cursor], true⟩
          else if !feed.hasMore then ⟨c.1, [cursor], true⟩
          else
            let deeper := userFeedSinceInternal fetch retryOn429 opt fuel feed.cursor
            if deeper.ok then ⟨c.1 ++ deeper.posts, cursor :: deeper.requested, true⟩
            else ⟨c.1, cursor :: deeper.requested, false⟩

/-- `getFeedFromCache` (client.go), given a fresh readable cache file with
contents `cached`: the same break/continue loop as the pager, applied to
the cached newest-first list, yields the run's view. -/
def cacheView (opt : FeedOpt) (cached : List Post) : List Post :=
  (collectPage opt cached).1

/-- Result of `getUserFeed`: the collected newest-first list handed to
`postsToChannel`, the expected count, what (if anything) was written to the
per-user cache file, and success. -/
structure UserFeedResult where
  posts : List Post
  expected : Nat
  savedCache : Option (List Post)
  ok : Bool
  deriving DecidableEq

/-- `getUserFeed` (client.go).  `cache` is `some cached` when the per-user
cache file exists, is within TTL and parses (a cache hit), `none`
otherwise.  On a hit the cached list is filtered into the view; on a miss
the pager runs and — when the feed-cache is enabled — its collected list is
written to the cache file by `saveFeedToCache` (`savedCache`). -/
def getUserFeed (feedCache : Bool) (cache : Option (List Post))
    (fetch : String → ApiResult) (retryOn429 : Bool) (opt : FeedOpt) (fuel : Nat) :
    UserFeedResult :=
  match feedCache, cache with
  | true, some cached =>
      let view := cacheView opt cached
      ⟨view, view.length, none, true⟩
  | _, _ =>
      let run := userFeedSinceInternal fetch retryOn429 opt fuel "0"
      if run.ok then
        ⟨run.posts, run.posts.length, if feedCache then some run.posts else none, true⟩
      else ⟨[], 0, none, false⟩

/-- Go swap statement `posts[i], posts[j] = posts[j], posts[i]` on a slice,
as a list operation (callers only use in-bounds indices; out-of-bounds
leaves the list unchanged). -/
def swapElems (l : List Post) (i j : Nat) : List Post :=
  match l.get? i, l.get? j with
  | some vi, some vj => (l.set i vj).set j vi
  | _, _ => l

/-- The reversal loop of `postsToChannel`:
`for i := 0; i < len(posts)/2; i++` swapping `i` with `len-i-1`.  The
structural `fuel` equals the remaining iteration count `len/2 - i`. -/
def revLoop : Nat → Nat → List Post → List Post
  | 0, _, l => l
  | fuel + 1, i, l =>
      if i < l.length / 2 then
        revLoop fuel (i + 1) (swapElems l i (l.length - i - 1))
      else l

/-- `postsToChannel` (client.go): the order in which posts are sent to the
returned channel — the collected list after the in-place reversal loop. -/
def postsToChannelOrder (posts : List Post) : List Post :=
  revLoop (posts.length / 2) 0 posts

/-! ## Per-video reconciliation decision (`processVideoInFeed`, non-force
path, per wanted quality) -/

/-- Result of `checkLocalAsset`: a stat error, a missing file, or a present
file with its on-disk size. -/
inductive LocalCheck
  | statErr
  | absent
  | present (size : Int)
  deriving DecidableEq, Repr

/-- Outcome of the validator built by `ValidateWithFfmpeg`: its Go body
returns either `(true, nil)` (ffmpeg exited 0) or `(false, err)` (non-zero
exit or spawn failure) — `(false, nil)` is unreachable, so two outcomes
suffice. -/
inductive FfmpegResult
  | pass
  | fail
  deriving DecidableEq, Repr

/-- The three ways `processVideoInFeed` can treat one wanted quality. -/
inductive VideoDecision
  | skip
  | adopt
  | download
  deriving DecidableEq, Repr

/-- The per-quality decision of `processVideoInFeed` (client.go, `force`
false): skip when the asset is already in history; download when the file
is absent or unreadable; otherwise adopt or re-download according to the
SD size check and — when an ffmpeg path is configured — the validator. -/
def processVideoQuality (post : Post) (quality : AssetType) (dbHas : Bool)
    (localCheck : LocalCheck) (ffmpegPath : String) (validation : FfmpegResult) :
    VideoDecision :=
  if dbHas then .skip
  else
    match localCheck with
    | .statErr => .download
    | .absent => .download
    | .present size =>
        let shouldAdopt : Bool :=
          if quality = AssetSD then
            if post.size > 0 ∧ size = post.size then true else false
          else true
        let afterValidation : Bool :=
          if shouldAdopt ∧ ffmpegPath ≠ "" then
            match validation with
            | .pass => true
            | .fail => false
          else shouldAdopt
        if afterValidation then .adopt else .download

/-- `adoptLocalAsset` (client.go): hash the existing file and record it;
errors (`none`) on an empty hash or an album post, otherwise one
`AddOrUpdateAsset` call. -/
def adoptLocalAsset (table : PostsTable) (post : Post) (assetType : AssetType)
    (fileHash : String) (now : Int) : Option PostsTable :=
  if fileHash = "" then none
  else if post.IsAlbum then none
  else AddOrUpdateAsset table post.ID post.authorUniqueId post.createTime assetType
    fileHash now

/-! ## Download engine retry harness (`downloadRetrying`, client.go) -/

/-- `MinRequiredDiskSpace` (internal/load.go): the 10 MiB floor used when
the expected file size is not known in advance. -/
def MinRequiredDiskSpace : Nat := 10 * 1024 * 1024

/-- Per-attempt environment of one `downloadRetrying` run, indexed by the
`try` counter: the post-refresh result (`getPostWithRetry`), the
source-encode submit+poll result, the free disk space probe
(`fs.Available`; `none` is a probe error), download success, and the
`ValidateWith` outcome (`none` is a validator error). -/
structure DlEnv where
  refresh : Nat → Option Post
  sourceEncode : Nat → Option (String × Int)
  availSpace : Nat → Option Nat
  downloadOk : Nat → Bool
  validate : Nat → Option Bool

/-- `getURLAndSizeForAsset` (client.go): HD/SD read the post's URL+size
fields, `source` submits and polls (empty URL is an error), an
`http`-prefixed asset type *is* the URL (size 0), anything else errors. -/
def getURLAndSizeForAsset (env : DlEnv) (t : Nat) (post : Post) (assetType : AssetType) :
    Option (String × Int) :=
  if assetType = AssetHD then some (post.hdplay, post.hdSize)
  else if assetType = AssetSD then some (post.play, post.size)
  else if assetType = AssetSource then
    match env.sourceEncode t with
    | none => none
    | some (u, sz) => if u = "" then none else some (u, sz)
  else if "http".isPrefixOf assetType then some (assetType, 0)
  else none

/-- Terminal outcome of `downloadRetrying`: success, the non-retryable
`ErrDiskSpace`, a (non-retryable) disk-probe error, or retry exhaustion. -/
inductive DlResult
  | ok
  | diskSpace
  | diskCheckErr
  | exhausted
  deriving DecidableEq, Repr

/-- Instrumented trace of a `downloadRetrying` run: the terminal result,
the `try` values whose attempt bodies were entered (in order), and how many
times `DownloadWith` was invoked. -/
structure DlTrace where
  result : DlResult
  triesEntered : List Nat
  downloadsPerformed : Nat
  deriving DecidableEq, Repr

/-- Prefix a trace with the current try number. -/
def DlTrace.addTry (t : Nat) (tr : DlTrace) : DlTrace :=
  { tr with triesEntered := t :: tr.triesEntered }

/-- Count one more `DownloadWith` invocation. -/
def DlTrace.addDownload (tr : DlTrace) : DlTrace :=
  { tr with downloadsPerformed := tr.downloadsPerformed + 1 }

/-- Body of `downloadRetrying` (client.go).  The structural `budget` equals
`opt.Retries + 1 - try`, so `budget = 0` is exactly the Go guard
`try > opt.Retries` (retry exhaustion).  Before a retry attempt (`t > 0`)
of an HD/SD asset the working post is refreshed; a failed refresh consumes
a retry with the old post.  URL resolution failure consumes a retry.  The
disk probe then runs: a probe error and an insufficient-space result both
return immediately without recursing (the latter is `ErrDiskSpace`).
A missing URL, a failed download, and a failed or erroring validation each
consume a retry. -/
def dlAux (env : DlEnv) (assetType : AssetType) : Nat → Nat → Post → DlTrace
  | 0, _, _ => ⟨.exhausted, [], 0⟩
  | budget + 1, t, post =>
      let refreshed : Option Post :=
        if t > 0 ∧ (assetType = AssetHD ∨ assetType = AssetSD) then env.refresh t
        else some post
      match refreshed with
      | none => DlTrace.addTry t (dlAux env assetType budget (t + 1) post)
      | some p =>
          match getURLAndSizeForAsset env t p assetType with
          | none => DlTrace.addTry t (dlAux env assetType budget (t + 1) p)
          | some us =>
              let required := if us.2 > 0 then us.2.toNat else MinRequiredDiskSpace
              match env.availSpace t with
              | none => ⟨.diskCheckErr, [t], 0⟩
              | some avail =>
                  if avail < required then ⟨.diskSpace, [t], 0⟩
                  else if us.1 = "" then DlTrace.addTry t (dlAux env assetType budget (t + 1) p)
                  else if !env.downloadOk t then
                    DlTrace.addDownload (DlTrace.addTry t (dlAux env assetType budget (t + 1) p))
                  else if p.IsVideo then
                    match env.validate t with
                    | none =>
                        DlTrace.addDownload (DlTrace.addTry t (dlAux env assetType budget (t + 1) p))
                    | some false =>
                        DlTrace.addDownload (DlTrace.addTry t (dlAux env assetType budget (t + 1) p))
                    | some true => ⟨.ok, [t], 1⟩
                  else ⟨.ok, [t], 1⟩

/-- `downloadRetrying` entered at `try = 0` with `opt.Retries = retries`. -/
def downloadRetrying (env : DlEnv) (post : Post) (assetType : AssetType) (retries : Nat) :
    DlTrace :=
  dlAux env assetType (retries + 1) 0 post

/-! ## Avatar path (`ensureAvatar`, client.go; `AddAvatar`, sqlite.go) -/

/-- The client-visible state `ensureAvatar` can touch: the files present
under the download root, the two database tables, and the per-run
processed-authors set. -/
structure ClientState where
  files : List String
  avatars : AvatarsTable
  posts : PostsTable
  processed : List String
  deriving DecidableEq, Repr

/-- How one `ensureAvatar` call ended. -/
inductive AvatarOutcome
  | skippedProcessed
  | noURL
  | downloadFailed
  | discardedDuplicate
  | savedNew
  deriving DecidableEq, Repr

/-- `ensureAvatar` (client.go): skip an author already processed this run;
otherwise download the avatar to a temporary file and hash it
(`downloadResult` is the hash on success); if the `(author, hash)` pair is
already recorded and `force` is off, delete the temporary file and stop;
otherwise rename the temporary file to its final name and `AddAvatar` the
pair. -/
def ensureAvatar (st : ClientState) (post : Post) (force : Bool)
    (downloadResult : Option String) (tempName finalName : String) (now : Int) :
    ClientState × AvatarOutcome :=
  let authorID := post.authorUniqueId
  if authorID ∈ st.processed then (st, .skippedProcessed)
  else
    let st0 := { st with processed := authorID :: st.processed }
    if post.authorAvatar = "" then (st0, .noURL)
    else
      match downloadResult with
      | none => (st0, .downloadFailed)
      | some hash =>
          let st1 := { st0 with files := tempName :: st0.files }
          if AvatarExists st1.avatars authorID hash ∧ force = false then
            ({ st1 with files := st1.files.erase tempName }, .discardedDuplicate)
          else
            let st2 := { st1 with files := finalName :: st1.files.erase tempName }
            ({ st2 with avatars := AddAvatar st2.avatars authorID hash now }, .savedNew)

/-! ## Rate limiter (`pkg/ratelimiter/ratelimiter.go`)

The limiter is a Go `time.Ticker` with period `R` plus a one-slot `first`
channel pre-filled at construction.  `time.Ticker` fires at times
`R, 2R, 3R, …` into a channel of capacity one; a tick firing while the
channel still holds an undelivered tick is dropped.  `Wait` consumes the
`first` token if still present, else takes a tick — immediately when one is
buffered, otherwise blocking until the next tick fires.  All calls go
through `internal/api.go`'s `wait()`, which serialises them under a mutex,
so the call history is a single nondecreasing sequence of call times. -/

/-- State of the limiter between calls: the 1-based index of the next tick
the ticker will fire, the fire time of the buffered undelivered tick (if
any), and whether the pre-filled `first` token is still available. -/
structure TickerState where
  nextTick : Nat
  buf : Option Nat
  firstToken : Bool
  deriving DecidableEq, Repr

/-- Limiter state right after `ratelimiter.New`: no tick fired yet, empty
channel, `first` token available. -/
def limiterInit : TickerState := ⟨1, none, true⟩

/-- Deliver the ticker's behaviour up to wall time `t`: every tick with
fire time `≤ t` has fired; the earliest one to fire while the buffer was
empty is buffered, later ones were dropped. -/
def advanceTicker (R : Nat) (s : TickerState) (t : Nat) : TickerState :=
  let buf :=
    match s.buf with
    | some τ => some τ
    | none => if s.nextTick * R ≤ t then some (s.nextTick * R) else none
  { s with nextTick := max s.nextTick (t / R + 1), buf := buf }

/-- `RateLimiter.Wait` called at wall time `t`: consume the `first` token
if present (immediate return), else a buffered tick (immediate return),
else block until the next tick fires and return then.  Returns the wall
time at which `Wait` returns, with the successor state. -/
def limiterWait (R : Nat) (s : TickerState) (t : Nat) : Nat × TickerState :=
  let s1 := advanceTicker R s t
  if s1.firstToken then (t, { s1 with firstToken := false })
  else
    match s1.buf with
    | some _ => (t, { s1 with buf := none })
    | none => (s1.nextTick * R, { s1 with nextTick := s1.nextTick + 1 })

/-- Run a (serialised, nondecreasing) sequence of `Wait` call times through
the limiter, returning the sequence of return times. -/
def runWaits (R : Nat) : TickerState → List Nat → List Nat
  | _, [] => []
  | s, t :: ts =>
      let r := limiterWait R s t
      r.1 :: runWaits R r.2 ts

/-! ## Auxiliary predicates and invariants used by the theorems -/

/-- A chain of successful page fetches: starting at `cursor`, the upstream
answers `.ok` with each successive feed, each fetched at the previous
feed's cursor. -/
def FetchChain (fetch : String → ApiResult) : String → List Feed → Prop
  | _, [] => True
  | c, f :: fs => fetch c = .ok f ∧ FetchChain fetch f.cursor fs

/-- The cursors at which the feeds of a chain are fetched, in order. -/
def chainCursors : String → List Feed → List String
  | _, [] => []
  | c, f :: fs => c :: chainCursors f.cursor fs

/-- The `posts` table states reachable through the store's mutating
operations: the empty table, an upsert with a non-empty hash (every caller
— `ensureVideoAsset`, `ensureAlbum`, `ensureCoverAsset`, `adoptLocalAsset`
— passes a SHA-256 hex digest), and an exact-id delete. -/
inductive ReachableHistory : PostsTable → Prop
  | empty : ReachableHistory []
  | upsert {t t' : PostsTable} {pid aid : String} {ct : Int} {k : AssetType}
      {sha : String} {now : Int} :
      ReachableHistory t → sha ≠ "" →
      AddOrUpdateAsset t pid aid ct k sha now = some t' → ReachableHistory t'
  | delete {t : PostsTable} {pid : String} :
      ReachableHistory t → ReachableHistory (DeletePost t pid)

/-- Invariant tying a limiter state to the number `m` of ticks consumed so
far and the wall clock `now`: the ticker index is live, at most
`nextTick - 1` ticks have fired of which `m` (plus the buffered one) are
accounted for, and a buffered tick fired at or before `now` but no earlier
than `(m + 1) * R`. -/
def TickerInv (R : Nat) (s : TickerState) (m : Nat) (now : Nat) : Prop :=
  1 ≤ s.nextTick ∧
  m + (if s.buf.isSome then 1 else 0) + 1 ≤ s.nextTick ∧
  (∀ τ, s.buf = some τ → (m + 1) * R ≤ τ ∧ τ ≤ now)

/-- The call discipline imposed by `internal/api.go`'s `wait()` mutex: the
limiter's `Wait` calls are serialised, so each call time is at or after the
previous call's return time (`now` is the earliest possible first call). -/
def SerializedFrom (R : Nat) : TickerState → Nat → List Nat → Prop
  | _, _, [] => True
  | s, now, t :: ts =>
      now ≤ t ∧ SerializedFrom R (limiterWait R s t).2 (limiterWait R s t).1 ts

/-! ## Concrete sample inputs for counterexamples and witnesses -/

/-- A `posts` row with the given id/author and every asset column unset. -/
def blankRow (id authorID : String) (createTime : Int) : PostRow :=
  { id := id, authorId := authorID, createTime := createTime,
    hasSd := false, hasHd := false, hasSource := false,
    hasCoverMedium := false, hasCoverOrigin := false, hasCoverDynamic := false,
    shaSd := "", shaHd := "", shaSource := "",
    shaCoverMedium := "", shaCoverOrigin := "", shaCoverDynamic := "",
    downloadedAt := 0 }

/-- A video post with the given id, create time and SD size. -/
def sampleVideo (id : String) (createTime : Int) (size : Int) : Post :=
  { id := id, videoId := "", title := "", play := "http://sd", hdplay := "http://hd",
    size := size, hdSize := 0, createTime := createTime,
    authorUniqueId := "alice", authorAvatar := "http://avatar", images := [] }

/-- C3 sample: a base post row (numeric id, no underscore) of author
`alice` with no SD asset recorded. -/
def c3row : PostRow := blankRow "123" "alice" 0

/-- C8 sample: a row whose id `91` merely extends the album id `9` by one
character — it matches the SQLite pattern `9_%` although `9_` is not a
literal prefix. -/
def c8row : PostRow :=
  { blankRow "91" "alice" 0 with hasHd := true, shaHd := "h91" }

/-- C1 sample: a video post whose upstream SD size is unknown (`0`). -/
def c1post : Post := sampleVideo "7100000000000000001" 300 0

/-- C2/C6/C7 samples: two posts, newest first. -/
def c2post1 : Post := sampleVideo "3" 300 10

def c2post2 : Post := sampleVideo "2" 100 10

/-- C2 sample upstream: a single page holding both posts. -/
def c2feed : Feed := { videos := [c2post1, c2post2], cursor := "34", hasMore := false }

/-- C2 sample fetch function. -/
def c2fetch (c : String) : ApiResult :=
  if c = "0" then .ok c2feed else .err

/-- C2 sample options for the first run (`--since` cutting at 200). -/
def c2opt : FeedOpt := ⟨WhileAfter 200, fun _ => true⟩

/-- C2 sample options for a later run with an earlier `--since` (50). -/
def c2optWide : FeedOpt := ⟨WhileAfter 50, fun _ => true⟩

/-- C4 sample environment: 6 MB free, downloads and validation succeed. -/
def c4env : DlEnv :=
  { refresh := fun _ => none, sourceEncode := fun _ => none,
    availSpace := fun _ => some 6000000, downloadOk := fun _ => true,
    validate := fun _ => some true }

/-- C4 sample post: HD size 5 MB — positive but below the 10 MiB floor the
claim's `max` would impose. -/
def c4post : Post := { sampleVideo "5" 300 10 with hdSize := 5000000 }

/-- C4 witness post: HD size unknown (0), so the 10 MiB floor applies. -/
def c4postZero : Post := sampleVideo "6" 300 10

/-- C6 witness upstream: page at cursor `0` passes wholly and has more;
page at cursor `c1` contains a truncating post and has more; the page at
cursor `c2` exists but must never be requested. -/
def c6fetch (c : String) : ApiResult :=
  if c = "0" then .ok { videos := [c2post1], cursor := "c1", hasMore := true }
  else if c = "c1" then .ok { videos := [c2post2], cursor := "c2", hasMore := true }
  else .ok { videos := [], cursor := "c3", hasMore := false }

/-- C9 witness: the table produced by upserting an SD asset into the empty
table. -/
def c9table : PostsTable := [freshRow "1" "alice" 5 .sd "abc" 9]

/-- C10 witness state: author `bob` has avatar hash `hv` recorded, one
unrelated file on disk, an empty `posts` table. -/
def c10state : ClientState :=
  { files := ["bob/old.mp4"],
    avatars := [{ authorId := "bob", sha256 := "hv", downloadedAt := 1 }],
    posts := [], processed := [] }

/-- C10 witness post by author `bob`. -/
def c10post : Post :=
  { sampleVideo "9" 300 10 with authorUniqueId := "bob" }

/-! # Theorems -/

/-! ## History-store lemmas -/

theorem id_setCol (r : PostRow) (col : Col) (sha : String) (now : Int) :
    (r.setCol col sha now).id = r.id := by
  cases col <;> rfl

theorem hasCol_setCol (r : PostRow) (col col' : Col) (sha : String) (now : Int) :
    (r.setCol col sha now).hasCol col' =
      if col' = col then true else r.hasCol col' := by
  cases col <;> cases col' <;> simp [PostRow.setCol, PostRow.hasCol]

theorem shaCol_setCol (r : PostRow) (col col' : Col) (sha : String) (now : Int) :
    (r.setCol col sha now).shaCol col' =
      if col' = col then sha else r.shaCol col' := by
  cases col <;> cases col' <;> simp [PostRow.setCol, PostRow.shaCol]

theorem hasCol_freshRow (pid aid : String) (ct : Int) (col col' : Col) (sha : String)
    (now : Int) :
    (freshRow pid aid ct col sha now).hasCol col' = if col' = col then true else false := by
  cases col <;> cases col' <;> simp [freshRow, PostRow.setCol, PostRow.hasCol]

theorem shaCol_freshRow (pid aid : String) (ct : Int) (col col' : Col) (sha : String)
    (now : Int) :
    (freshRow pid aid ct col sha now).shaCol col' = if col' = col then sha else "" := by
  cases col <;> cases col' <;> simp [freshRow, PostRow.setCol, PostRow.shaCol]

theorem id_freshRow (pid aid : String) (ct : Int) (col : Col) (sha : String) (now : Int) :
    (freshRow pid aid ct col sha now).id = pid := by
  cases col <;> rfl

theorem lookupRow_map_upsert (t : PostsTable) (pid : String) (col : Col) (sha : String)
    (now : Int) (r0 : PostRow) (h : lookupRow t pid = some r0) :
    lookupRow (t.map fun r => if r.id = pid then r.setCol col sha now else r) pid =
      some (r0.setCol col sha now) := by
  induction t with
  | nil => simp [lookupRow] at h
  | cons a t ih =>
      by_cases ha : a.id = pid
      · rw [lookupRow, List.find?_cons_of_pos _ (by simp [ha])] at h
        cases h
        rw [List.map_cons, if_pos ha, lookupRow,
          List.find?_cons_of_pos _ (by simp [id_setCol, ha])]
      · rw [lookupRow, List.find?_cons_of_neg _ (by simp [ha])] at h
        rw [List.map_cons, if_neg ha, lookupRow,
          List.find?_cons_of_neg _ (by simp [ha])]
        exact ih h

theorem lookupRow_append_single (t : PostsTable) (pid : String) (r : PostRow)
    (hnone : lookupRow t pid = none) (hr : r.id = pid) :
    lookupRow (t ++ [r]) pid = some r := by
  simp only [lookupRow] at hnone ⊢
  rw [List.find?_append, hnone]
  simp [hr]

/-- Shared postcondition of the upsert statement: for any recognised asset
type, `AddOrUpdateAsset` succeeds and the target row ends with `has_X`
set and `sha256_X` equal to the given hash. -/
theorem AddOrUpdateAsset_sets (t : PostsTable) (pid aid : String) (ct : Int)
    (k : AssetType) (sha : String) (now : Int) (t' : PostsTable) (col : Col)
    (hcol : colFor k = some col)
    (hup : AddOrUpdateAsset t pid aid ct k sha now = some t') :
    ∃ r, lookupRow t' pid = some r ∧ r.hasCol col = true ∧ r.shaCol col = sha := by
  simp only [AddOrUpdateAsset, hcol] at hup
  by_cases hsome : (lookupRow t pid).isSome
  · obtain ⟨r0, hr0⟩ := Option.isSome_iff_exists.mp hsome
    rw [if_pos hsome] at hup
    cases hup
    refine ⟨r0.setCol col sha now, lookupRow_map_upsert t pid col sha now r0 hr0, ?_, ?_⟩
    · rw [hasCol_setCol]; simp
    · rw [shaCol_setCol]; simp
  · rw [if_neg hsome] at hup
    cases hup
    refine ⟨freshRow pid aid ct col sha now, ?_, ?_, ?_⟩
    · exact lookupRow_append_single t pid _ (Option.not_isSome_iff_eq_none.mp hsome)
        (id_freshRow pid aid ct col sha now)
    · rw [hasCol_freshRow]; simp
    · rw [shaCol_freshRow]; simp

/-- For a recognised asset type the upsert never errors. -/
theorem AddOrUpdateAsset_isSome (t : PostsTable) (pid aid : String) (ct : Int)
    (k : AssetType) (sha : String) (now : Int) (col : Col)
    (hcol : colFor k = some col) :
    ∃ t', AddOrUpdateAsset t pid aid ct k sha now = some t' := by
  simp only [AddOrUpdateAsset, hcol]
  by_cases hsome : (lookupRow t pid).isSome
  · exact ⟨_, by rw [if_pos hsome]⟩
  · exact ⟨_, by rw [if_neg hsome]⟩

/-- C9: a successful `AddOrUpdateAsset` with a non-empty hash leaves the
target row with `has_X = true` and `sha256_X` equal to that hash (both set
by the one insert-or-update statement); and every `posts` table reachable
through the store's operations satisfies the invariant that a set `has_X`
flag comes with a non-empty `sha256_X`. -/
theorem c9_upsert_atomic_invariant :
    (∀ (t : PostsTable) (pid aid : String) (ct : Int) (k : AssetType) (sha : String)
        (now : Int) (t' : PostsTable) (col : Col),
        sha ≠ "" → colFor k = some col →
        AddOrUpdateAsset t pid aid ct k sha now = some t' →
        ∃ r, lookupRow t' pid = some r ∧ r.hasCol col = true ∧ r.shaCol col = sha) ∧
    (∀ t : PostsTable, ReachableHistory t →
        ∀ r ∈ t, ∀ col : Col, r.hasCol col = true → r.shaCol col ≠ "") := by
  refine ⟨fun t pid aid ct k sha now t' col _ hcol hup =>
    AddOrUpdateAsset_sets t pid aid ct k sha now t' col hcol hup, ?_⟩
  intro t hreach
  induction hreach with
  | empty => intro r hr; simp at hr
  | @upsert t t' pid aid ct k sha now _ hsha hup ih =>
      intro r' hr' col hhas
      rcases hc : colFor k with _ | col0
      · simp only [AddOrUpdateAsset, hc] at hup
        cases hup
      simp only [AddOrUpdateAsset, hc] at hup
      by_cases hsome : (lookupRow t pid).isSome
      · rw [if_pos hsome] at hup
        cases hup
        obtain ⟨r, hrmem, hfr⟩ := List.mem_map.mp hr'
        by_cases hid : r.id = pid
        · rw [if_pos hid] at hfr
          subst hfr
          rw [hasCol_setCol] at hhas
          rw [shaCol_setCol]
          by_cases hcc : col = col0
          · rw [if_pos hcc]; exact hsha
          · rw [if_neg hcc] at hhas ⊢; exact ih r hrmem col hhas
        · rw [if_neg hid] at hfr
          subst hfr
          exact ih r hrmem col hhas
      · rw [if_neg hsome] at hup
        cases hup
        rcases List.mem_append.mp hr' with hmem | hmem
        · exact ih r' hmem col hhas
        · have : r' = freshRow pid aid ct col0 sha now := by simpa using hmem
          subst this
          rw [hasCol_freshRow] at hhas
          rw [shaCol_freshRow]
          by_cases hcc : col = col0
          · rw [if_pos hcc]; exact hsha
          · rw [if_neg hcc] at hhas; cases hhas
  | @delete t pid _ ih =>
      intro r hr col hhas
      exact ih r (List.mem_filter.mp hr).1 col hhas

/-- C9 witness: upserting an SD asset with hash `abc` into the empty table
yields a row with `has_sd` set and `sha256_sd = "abc"`. -/
theorem c9_upsert_atomic_invariant_witness :
    ∃ r, lookupRow c9table "1" = some r ∧ r.hasCol .sd = true ∧ r.shaCol .sd = "abc" :=
  c9_upsert_atomic_invariant.1 [] "1" "alice" 5 AssetSD "abc" 9 c9table .sd
    (by decide) (by decide) (by decide)

/-- C3: evaluation at a concrete failing input.  The row `123` of author
`alice` is a base post (no underscore in its id) with `has_sd = 0`, yet
`GetMissingPostsByAuthor` yields the empty list, because the bound SQLite
pattern `'%_%'` in `id NOT LIKE '%_%'` treats `_` as a single-character
wildcard and therefore matches every non-empty id. -/
theorem c3_missing_posts_like_bug :
    GetMissingPostsByAuthor [c3row] "alice" AssetSD = some [] ∧
    c3row.authorId = "alice" ∧ c3row.hasSd = false ∧
    c3row.id.toList.contains '_' = false ∧
    sqlLike "%_%" c3row.id = true := by
  decide

/-- Unfolding equations of the `LIKE` matcher at a successor budget. -/
theorem likeAux_succ_pct (n : Nat) (ps : List Char) (s : List Char) :
    likeAux (n + 1) ('%' :: ps) s =
      (likeAux n ps s ||
        match s with
        | [] => false
        | _ :: s1 => likeAux n ('%' :: ps) s1) := rfl

theorem likeAux_succ_us (n : Nat) (ps : List Char) (c : Char) (s : List Char) :
    likeAux (n + 1) ('_' :: ps) (c :: s) = likeAux n ps s := rfl

theorem likeAux_succ_nil_nil (n : Nat) : likeAux (n + 1) ([] : List Char) [] = true := rfl

/-- A lone `%` pattern matches any string (with enough budget). -/
theorem likeAux_pct (l : List Char) : ∀ (n : Nat), l.length + 1 < n →
    likeAux n ['%'] l = true := by
  induction l with
  | nil =>
      intro n hn
      obtain ⟨m, rfl⟩ : ∃ m, n = m + 1 + 1 := ⟨n - 2, by omega⟩
      rw [likeAux_succ_pct, likeAux_succ_nil_nil]
      simp
  | cons c l ih =>
      intro n hn
      obtain ⟨m, rfl⟩ : ∃ m, n = m + 1 := ⟨n - 1, by omega⟩
      rw [likeAux_succ_pct]
      have hih := ih m (by simp at hn; omega)
      simp [hih]
/-- The SQLite pattern `%_%` matches every non-empty string: `_` is a
single-character wildcard, so `id NOT LIKE '%_%'` keeps only empty ids. -/
theorem sqlLike_underscore_nonempty (s : String) (hs : s ≠ "") :
    sqlLike "%_%" s = true := by
  obtain ⟨data⟩ := s
  obtain ⟨c, r, rfl⟩ : ∃ c r, data = c :: r := by
    cases data with
    | nil => exact absurd rfl hs
    | cons c r => exact ⟨c, r, rfl⟩
  show likeAux (3 + (r.length + 1) + 1) ['%', '_', '%'] (c :: r) = true
  have hb : 3 + (r.length + 1) + 1 = r.length + 4 + 1 := by omega
  rw [hb, likeAux_succ_pct]
  show (likeAux (r.length + 3 + 1) ['_', '%'] (c :: r) ||
    likeAux (r.length + 4) ['%', '_', '%'] r) = true
  rw [likeAux_succ_us, likeAux_pct r (r.length + 3) (by omega)]
  simp

/-- Every record `GetMissingPostsByAuthor` can ever yield has an empty id:
the base-post rows the claim expects are all excluded by the wildcard. -/
theorem getMissing_returns_only_empty_ids (table : PostsTable) (authorID : String)
    (assetType : AssetType) (res : List PostRecord)
    (h : GetMissingPostsByAuthor table authorID assetType = some res) :
    ∀ rec ∈ res, rec.id = "" := by
  intro rec hrec
  rw [GetMissingPostsByAuthor] at h
  by_cases h1 : assetType = AssetHD
  · rw [if_pos h1] at h
    cases h
    obtain ⟨r, hr, hrrec⟩ := List.mem_map.mp hrec
    obtain ⟨-, hfilt⟩ := List.mem_filter.mp hr
    have hid : r.id = "" := by
      by_contra hne
      simp [sqlLike_underscore_nonempty r.id hne] at hfilt
    rw [← hrrec, PostRow.toRecord, hid]
  · rw [if_neg h1] at h
    by_cases h2 : assetType = AssetSD
    · rw [if_pos h2] at h
      cases h
      obtain ⟨r, hr, hrrec⟩ := List.mem_map.mp hrec
      obtain ⟨-, hfilt⟩ := List.mem_filter.mp hr
      have hid : r.id = "" := by
        by_contra hne
        simp [sqlLike_underscore_nonempty r.id hne] at hfilt
      rw [← hrrec, PostRow.toRecord, hid]
    · rw [if_neg h2] at h
      cases h

/-- C8: evaluation at a concrete failing input.  The table holds exactly
one row, with id `91`; `GetAlbumPhotoCount` for post `9` returns `1`
although no row's id has the literal prefix `9_`, because the bound SQLite
pattern `9_%` lets `_` match the character `1`. -/
theorem c8_album_count_like_bug :
    GetAlbumPhotoCount [c8row] "9" = 1 ∧
    ("9_".toList.isPrefixOf c8row.id.toList) = false := by
  decide

/-! ## C10: avatar frame conditions -/

/-- C10: when `ensureAvatar` (force off) downloads an avatar whose
`(author, hash)` pair is already recorded, the only state change is the
removal of its own temporary file (no rename, no `avatars` row, `posts`
untouched; the per-run processed set gains the author); when the pair is
new, the temporary file is renamed to the final name and exactly one
`avatars` row is appended; and `AddAvatar` is idempotent on an existing
composite key. -/
theorem c10_avatar_frame :
    ∀ (st : ClientState) (post : Post) (h : String) (tempName finalName : String)
      (now : Int),
    post.authorUniqueId ∉ st.processed →
    post.authorAvatar ≠ "" →
    (AvatarExists st.avatars post.authorUniqueId h = true →
      ensureAvatar st post false (some h) tempName finalName now =
        ({ st with processed := post.authorUniqueId :: st.processed },
         .discardedDuplicate)) ∧
    (AvatarExists st.avatars post.authorUniqueId h = false →
      ensureAvatar st post false (some h) tempName finalName now =
        ({ st with
            files := finalName :: st.files,
            avatars := st.avatars ++
              [{ authorId := post.authorUniqueId, sha256 := h, downloadedAt := now }],
            processed := post.authorUniqueId :: st.processed },
         .savedNew)) ∧
    (∀ (table : AvatarsTable) (a s2 : String) (n2 : Int),
      AvatarExists table a s2 = true → AddAvatar table a s2 n2 = table) := by
  intro st post h tempName finalName now hmem havatar
  refine ⟨?_, ?_, ?_⟩
  · intro hexists
    rw [ensureAvatar]
    rw [if_neg hmem, if_neg havatar]
    simp only
    rw [if_pos ⟨hexists, trivial⟩]
    simp [List.erase_cons_head]
  · intro hnew
    rw [ensureAvatar]
    rw [if_neg hmem, if_neg havatar]
    simp only
    rw [if_neg (by simp only [AvatarExists] at hnew ⊢; simpa using hnew)]
    simp only [List.erase_cons_head]
    rw [AddAvatar, if_neg (by simp only [AvatarExists] at hnew; simpa using hnew)]
  · intro table a s2 n2 hexists
    rw [AddAvatar, if_pos]
    simpa [AvatarExists] using hexists

/-- C10 witness: author `bob` with hash `hv` already recorded — the call
only updates the processed set, leaving files and both tables unchanged. -/
theorem c10_avatar_frame_witness :
    ensureAvatar c10state c10post false (some "hv") "bob/avatar_temp_1"
      "bob/20250101T000000Z_avatar.jpg" 2 =
      ({ c10state with processed := ["bob"] }, .discardedDuplicate) :=
  (c10_avatar_frame c10state c10post "hv" "bob/avatar_temp_1"
    "bob/20250101T000000Z_avatar.jpg" 2 (by decide) (by decide)).1 (by decide)

/-! ## C1: per-video adoption decision -/

/-- C1 counterexample: a video post whose upstream SD size is `0`, with the
SD file present on disk (12345 bytes) and ffmpeg configured and passing —
the claim's adoption condition ("passes ffmpeg validation") holds, yet
`processVideoInFeed` re-downloads: the SD branch requires `post.size > 0`
and a size match before ffmpeg validation is even consulted. -/
theorem c1_claim_counterexample :
    c1post.size = 0 ∧
    processVideoQuality c1post AssetSD false (.present 12345) "/usr/bin/ffmpeg" .pass =
      .download := by
  decide

/-- Neither branch of the final adopt-or-download decision is a skip. -/
theorem adopt_or_download_ne_skip (b : Bool) :
    (if b = true then VideoDecision.adopt else VideoDecision.download) ≠
      VideoDecision.skip := by
  cases b <;> simp

/-- C1 (amended): for a wanted kind not in history, a present file is
adopted iff (for sd) `post.size > 0` and the on-disk size equals it, and
(when an ffmpeg path is configured) validation passes; `skip` happens iff
the kind is already recorded; and adoption records the file's hash through
`adoptLocalAsset`/`AddOrUpdateAsset` (setting `has_X` and `sha256_X`). -/
theorem c1_adoption_decision :
    ∀ (post : Post) (quality : AssetType) (dbHas : Bool) (localCheck : LocalCheck)
      (ffmpegPath : String) (validation : FfmpegResult),
    (processVideoQuality post quality dbHas localCheck ffmpegPath validation =
        .adopt ↔
      dbHas = false ∧ ∃ size, localCheck = .present size ∧
        (quality = AssetSD → 0 < post.size ∧ size = post.size) ∧
        (ffmpegPath ≠ "" → validation = .pass)) ∧
    (processVideoQuality post quality dbHas localCheck ffmpegPath validation =
        .skip ↔ dbHas = true) ∧
    (∀ (table : PostsTable) (h : String) (now : Int) (col : Col),
      post.IsVideo = true → h ≠ "" → colFor quality = some col →
      ∃ table', adoptLocalAsset table post quality h now = some table' ∧
        ∃ r, lookupRow table' post.ID = some r ∧ r.hasCol col = true ∧
          r.shaCol col = h) := by
  intro post quality dbHas localCheck ffmpegPath validation
  refine ⟨?_, ?_, ?_⟩
  · cases dbHas with
    | true => simp [processVideoQuality]
    | false =>
        cases localCheck with
        | statErr => simp [processVideoQuality]
        | absent => simp [processVideoQuality]
        | present size =>
            simp only [processVideoQuality]
            by_cases hsd : quality = AssetSD
            · by_cases hsize : 0 < post.size ∧ size = post.size
              · by_cases hff : ffmpegPath = ""
                · cases validation <;>
                    simp [hsd, hsize, hff, LocalCheck.present.injEq]
                · cases validation <;>
                    simp [hsd, hsize, hff, LocalCheck.present.injEq]
              · have : ¬ (post.size > 0 ∧ size = post.size) := hsize
                cases validation <;>
                  simp [hsd, this, LocalCheck.present.injEq]
            · by_cases hff : ffmpegPath = ""
              · cases validation <;> simp [hsd, hff, LocalCheck.present.injEq]
              · cases validation <;> simp [hsd, hff, LocalCheck.present.injEq]
  · cases dbHas with
    | true => simp [processVideoQuality]
    | false =>
        cases localCheck with
        | statErr => simp [processVideoQuality]
        | absent => simp [processVideoQuality]
        | present size =>
            simp only [processVideoQuality, Bool.false_eq_true, if_false,
              Bool.true_eq_false, iff_false]
            exact adopt_or_download_ne_skip _
  · intro table h now col hvideo hh hcol
    have halbum : post.IsAlbum = false := by
      rw [Post.IsVideo] at hvideo
      cases hih : post.IsAlbum with
      | false => rfl
      | true => rw [hih] at hvideo; cases hvideo
    obtain ⟨t', ht'⟩ :=
      AddOrUpdateAsset_isSome table post.ID post.authorUniqueId post.createTime
        quality h now col hcol
    refine ⟨t', ?_, AddOrUpdateAsset_sets table post.ID post.authorUniqueId
      post.createTime quality h now t' col hcol ht'⟩
    rw [adoptLocalAsset, if_neg hh, halbum]
    simpa using ht'

/-- C1 witness: adopting an HD file (hash `ff`) for a video post into the
empty history records `has_hd` with that hash. -/
theorem c1_adoption_decision_witness :
    ∃ table', adoptLocalAsset [] c2post1 AssetHD "ff" 9 = some table' ∧
      ∃ r, lookupRow table' c2post1.ID = some r ∧ r.hasCol .hd = true ∧
        r.shaCol .hd = "ff" :=
  (c1_adoption_decision c2post1 AssetHD false (.present 10) "" .pass).2.2 [] "ff" 9 .hd
    (by decide) (by decide) (by decide)

/-! ## C4: disk pre-check and DiskSpace non-retry -/

/-- C4 counterexample: an HD asset of expected size 5 MB with 6 MB free —
below the claim's `max(expectedSize, 10 MiB)` threshold — yet the download
proceeds and succeeds on the first attempt: the code only requires
`expectedSize` bytes when the size is positive (the 10 MiB floor applies
only when the size is unknown). -/
theorem c4_claim_counterexample :
    downloadRetrying c4env c4post AssetHD 3 = ⟨.ok, [0], 1⟩ ∧
    6000000 < max c4post.hdSize.toNat MinRequiredDiskSpace := by
  decide

/-- C4 (amended): at any attempt whose URL resolution succeeds, the disk
pre-check requires `expectedSize` bytes when `expectedSize > 0` and 10 MiB
otherwise; when fewer bytes are available the harness returns the
`DiskSpace` error immediately — no download is performed at that attempt,
no further attempt is entered, and the error propagates without consuming a
retry. -/
theorem c4_diskspace_immediate :
    ∀ (env : DlEnv) (post p : Post) (assetType : AssetType) (t retries : Nat)
      (us : String × Int) (avail : Nat),
    t ≤ retries →
    (if t > 0 ∧ (assetType = AssetHD ∨ assetType = AssetSD) then env.refresh t
     else some post) = some p →
    getURLAndSizeForAsset env t p assetType = some us →
    env.availSpace t = some avail →
    avail < (if us.2 > 0 then us.2.toNat else MinRequiredDiskSpace) →
    dlAux env assetType (retries + 1 - t) t post = ⟨.diskSpace, [t], 0⟩ := by
  intro env post p assetType t retries us avail hle hrefresh hurl havail hlt
  have hb : retries + 1 - t = (retries - t) + 1 := by omega
  rw [hb]
  simp only [dlAux]
  rw [hrefresh]
  simp only
  rw [hurl]
  simp only
  rw [havail]
  simp only
  rw [if_pos hlt]

/-- C4 witness: an HD asset with unknown size (0) and 6 MB free — required
space is the 10 MiB floor, the first attempt fails with `DiskSpace`, enters
no other attempt and performs no download. -/
theorem c4_diskspace_immediate_witness :
    dlAux c4env AssetHD (3 + 1 - 0) 0 c4postZero = ⟨.diskSpace, [0], 0⟩ :=
  c4_diskspace_immediate c4env c4postZero c4postZero AssetHD 0 3
    (c4postZero.hdplay, c4postZero.hdSize) 6000000 (by decide) (by decide)
    (by decide) (by decide) (by decide)

/-! ## C7: channel emission order -/

theorem swapElems_length (l : List Post) (i j : Nat) :
    (swapElems l i j).length = l.length := by
  rw [swapElems]
  rcases l.get? i with _ | vi <;> rcases l.get? j with _ | vj <;>
    simp [List.length_set]

theorem swapElems_getElem? (l : List Post) (i j m : Nat) (hi : i < l.length)
    (hj : j < l.length) :
    (swapElems l i j)[m]? =
      if m = i then l[j]? else if m = j then l[i]? else l[m]? := by
  have hvi : l[i]? = some l[i] := List.getElem?_eq_getElem hi
  have hvj : l[j]? = some l[j] := List.getElem?_eq_getElem hj
  rw [swapElems, List.get?_eq_getElem?, List.get?_eq_getElem?, hvi, hvj]
  simp only
  rw [List.getElem?_set]
  by_cases hjm : j = m
  · subst hjm
    rw [if_pos rfl, if_pos (by rw [List.length_set]; exact hj)]
    by_cases hji : j = i
    · subst hji
      rw [if_pos rfl]
    · rw [if_neg hji, if_pos rfl]
  · rw [if_neg hjm, List.getElem?_set]
    by_cases him : i = m
    · subst him
      rw [if_pos rfl, if_pos hi, if_pos rfl]
    · rw [if_neg him, if_neg (fun h => him h.symm), if_neg (fun h => hjm h.symm)]

theorem revLoop_length (fuel : Nat) :
    ∀ (i : Nat) (l : List Post), (revLoop fuel i l).length = l.length := by
  induction fuel with
  | zero => intro i l; rw [revLoop]
  | succ fuel ih =>
      intro i l
      rw [revLoop]
      by_cases hlt : i < l.length / 2
      · rw [if_pos hlt, ih, swapElems_length]
      · rw [if_neg hlt]

theorem revLoop_getElem? (fuel : Nat) :
    ∀ (i : Nat) (l : List Post) (k : Nat), l.length / 2 ≤ i + fuel →
    (revLoop fuel i l)[k]? =
      if k < i ∨ l.length - i ≤ k then l[k]? else l[l.length - 1 - k]? := by
  induction fuel with
  | zero =>
      intro i l k hle
      rw [revLoop]
      by_cases hcase : k < i ∨ l.length - i ≤ k
      · rw [if_pos hcase]
      · rw [if_neg hcase]
        push_neg at hcase
        have heq : l.length - 1 - k = k := by omega
        rw [heq]
  | succ fuel ih =>
      intro i l k hle
      rw [revLoop]
      by_cases hlt : i < l.length / 2
      · rw [if_pos hlt]
        have hi : i < l.length := by omega
        have hj : l.length - i - 1 < l.length := by omega
        have hii : i < l.length - i - 1 := by omega
        have hlen : (swapElems l i (l.length - i - 1)).length = l.length :=
          swapElems_length l i (l.length - i - 1)
        have hle2 : (swapElems l i (l.length - i - 1)).length / 2 ≤ (i + 1) + fuel := by
          rw [hlen]; omega
        rw [ih (i + 1) (swapElems l i (l.length - i - 1)) k hle2, hlen]
        by_cases hki : k < i
        · rw [if_pos (Or.inl (by omega)), if_pos (Or.inl hki),
            swapElems_getElem? l i _ k hi hj, if_neg (by omega), if_neg (by omega)]
        · by_cases hkeq : k = i
          · subst hkeq
            rw [if_pos (Or.inl (by omega)), if_neg (by omega),
              swapElems_getElem? l k _ k hi hj, if_pos rfl]
            have heq : l.length - k - 1 = l.length - 1 - k := by omega
            rw [heq]
          · by_cases hkj : k = l.length - i - 1
            · rw [if_pos (Or.inr (by omega)), if_neg (by omega),
                swapElems_getElem? l i _ k hi hj, if_neg (by omega), if_pos hkj]
              have heq : l.length - 1 - k = i := by omega
              rw [heq]
            · by_cases hkbig : l.length - i ≤ k
              · rw [if_pos (Or.inr (by omega)), if_pos (Or.inr hkbig),
                  swapElems_getElem? l i _ k hi hj, if_neg (by omega),
                  if_neg (by omega)]
              · rw [if_neg (by omega), if_neg (by omega),
                  swapElems_getElem? l i _ (l.length - 1 - k) hi hj,
                  if_neg (by omega), if_neg (by omega)]
      · rw [if_neg hlt]
        by_cases hcase : k < i ∨ l.length - i ≤ k
        · rw [if_pos hcase]
        · rw [if_neg hcase]
          push_neg at hcase
          have heq : l.length - 1 - k = k := by omega
          rw [heq]

/-- C7: the sequence `postsToChannel` sends to its channel is the exact
reverse of the collected newest-first list — posts are emitted
oldest-first. -/
theorem c7_channel_emits_reverse (posts : List Post) :
    postsToChannelOrder posts = posts.reverse := by
  apply List.ext_getElem?
  intro k
  rw [postsToChannelOrder, revLoop_getElem? _ 0 posts k (by omega)]
  by_cases hk : k < posts.length
  · rw [if_neg (by omega), List.getElem?_reverse hk]
  · rw [if_pos (by omega), List.getElem?_eq_none (by omega),
      List.getElem?_eq_none (by rw [List.length_reverse]; omega)]

/-! ## C2 and C6: feed pagination, truncation and cache persistence -/

/-- The page loop collects the `Filter`-passing prefix up to the first
`While`-failing post, and reports whether such a post was encountered. -/
theorem collectPage_eq (opt : FeedOpt) (vs : List Post) :
    collectPage opt vs =
      ((vs.takeWhile opt.whilePred).filter opt.filterPred, !vs.all opt.whilePred) := by
  induction vs with
  | nil => rfl
  | cons v vs ih =>
      by_cases hw : opt.whilePred v = true
      · by_cases hf : opt.filterPred v = true
        · simp [collectPage, hw, hf, ih, List.takeWhile_cons, List.filter_cons]
        · have hf' : opt.filterPred v = false := by simpa using hf
          simp [collectPage, hw, hf', ih, List.takeWhile_cons, List.filter_cons]
      · have hw' : opt.whilePred v = false := by simpa using hw
        simp [collectPage, hw', List.takeWhile_cons]

theorem chainCursors_length (fs : List Feed) :
    ∀ c : String, (chainCursors c fs).length = fs.length := by
  induction fs with
  | nil => intro c; rfl
  | cons f fs ih => intro c; simp [chainCursors, ih]

/-- Pagination along a successful chain whose non-final pages pass `While`
wholly and have more, and whose final page either truncates or is the last:
the run succeeds, collects the truncated filtered view, and requests
exactly the chain's cursors. -/
theorem userFeedSinceInternal_chain (fetch : String → ApiResult) (retryOn429 : Bool)
    (opt : FeedOpt) :
    ∀ (fs : List Feed) (flast : Feed) (c : String) (fuel : Nat),
    FetchChain fetch c (fs ++ [flast]) →
    (∀ f ∈ fs, (∀ v ∈ f.videos, opt.whilePred v = true) ∧ f.hasMore = true) →
    (flast.hasMore = false ∨ ∃ v ∈ flast.videos, opt.whilePred v = false) →
    fs.length < fuel →
    userFeedSinceInternal fetch retryOn429 opt fuel c =
      ⟨((fs.map Feed.videos).flatten ++ flast.videos.takeWhile opt.whilePred).filter
          opt.filterPred,
       chainCursors c (fs ++ [flast]), true⟩ := by
  intro fs
  induction fs with
  | nil =>
      intro flast c fuel hchain hall hterm hfuel
      obtain ⟨fuel, rfl⟩ : ∃ n, fuel = n + 1 := ⟨fuel - 1, by omega⟩
      obtain ⟨hfetch, -⟩ := hchain
      rw [userFeedSinceInternal, hfetch]
      simp only [collectPage_eq]
      cases htr : flast.videos.all opt.whilePred with
      | false =>
          simp [chainCursors]
      | true =>
          have hnm : flast.hasMore = false := by
            rcases hterm with h | ⟨v, hv, hvf⟩
            · exact h
            · exact absurd (List.all_eq_true.mp htr v hv) (by simp [hvf])
          simp [hnm, chainCursors]
  | cons f fs ih =>
      intro flast c fuel hchain hall hterm hfuel
      obtain ⟨fuel, rfl⟩ : ∃ n, fuel = n + 1 := ⟨fuel - 1, by omega⟩
      obtain ⟨hfetch, hchain'⟩ := hchain
      obtain ⟨hpass, hmore⟩ := hall f (by simp)
      have hall' : ∀ g ∈ fs, (∀ v ∈ g.videos, opt.whilePred v = true) ∧
          g.hasMore = true := fun g hg => hall g (by simp [hg])
      have htw : f.videos.takeWhile opt.whilePred = f.videos :=
        List.takeWhile_eq_self_iff.mpr hpass
      have hallb : f.videos.all opt.whilePred = true := List.all_eq_true.mpr hpass
      rw [userFeedSinceInternal, hfetch]
      simp only [collectPage_eq]
      rw [ih flast f.cursor fuel hchain' hall' hterm (by simp at hfuel; omega)]
      simp [hallb, hmore, htw, chainCursors, List.filter_append]

/-- C6: for a feed spanning several pages, the first post failing the
truncation predicate ends pagination: the run succeeds with the posts
collected so far, and the requested cursors are exactly those of the pages
up to and including the truncating one — no later page is fetched. -/
theorem c6_truncation_stops_pagination :
    ∀ (fetch : String → ApiResult) (retryOn429 : Bool) (opt : FeedOpt)
      (fs : List Feed) (flast : Feed) (c : String) (fuel : Nat),
    FetchChain fetch c (fs ++ [flast]) →
    (∀ f ∈ fs, (∀ v ∈ f.videos, opt.whilePred v = true) ∧ f.hasMore = true) →
    (∃ v ∈ flast.videos, opt.whilePred v = false) →
    fs.length < fuel →
    (userFeedSinceInternal fetch retryOn429 opt fuel c).ok = true ∧
    (userFeedSinceInternal fetch retryOn429 opt fuel c).posts =
      ((fs.map Feed.videos).flatten ++ flast.videos.takeWhile opt.whilePred).filter
        opt.filterPred ∧
    (userFeedSinceInternal fetch retryOn429 opt fuel c).requested =
      chainCursors c (fs ++ [flast]) ∧
    ((userFeedSinceInternal fetch retryOn429 opt fuel c).requested).length =
      fs.length + 1 := by
  intro fetch retryOn429 opt fs flast c fuel hchain hall hex hfuel
  rw [userFeedSinceInternal_chain fetch retryOn429 opt fs flast c fuel hchain hall
    (Or.inr hex) hfuel]
  refine ⟨rfl, rfl, rfl, ?_⟩
  rw [chainCursors_length, List.length_append]
  rfl

/-- C6 witness: two fetched pages; the second contains the truncating post;
the third page (cursor `c2`) is never requested. -/
theorem c6_truncation_stops_pagination_witness :
    (userFeedSinceInternal c6fetch false c2opt 2 "0").ok = true ∧
    (userFeedSinceInternal c6fetch false c2opt 2 "0").posts =
      (([⟨[c2post1], "c1", true⟩].map Feed.videos).flatten ++
        (Feed.mk [c2post2] "c2" true).videos.takeWhile c2opt.whilePred).filter
        c2opt.filterPred ∧
    (userFeedSinceInternal c6fetch false c2opt 2 "0").requested =
      chainCursors "0" ([⟨[c2post1], "c1", true⟩] ++ [⟨[c2post2], "c2", true⟩]) ∧
    ((userFeedSinceInternal c6fetch false c2opt 2 "0").requested).length = 1 + 1 :=
  c6_truncation_stops_pagination c6fetch false c2opt [⟨[c2post1], "c1", true⟩]
    ⟨[c2post2], "c2", true⟩ "0" 2 ⟨by decide, by decide, trivial⟩ (by decide)
    (by decide) (by decide)

/-- C2 counterexample: the upstream returns the single page
`[c2post1, c2post2]`; with `--since = 200` the pager truncates at `c2post2`
and `saveFeedToCache` persists only `[c2post1]` — not the unfiltered list —
so a later run with the wider predicate `--since = 50` reading the same
cache sees only `c2post1` and never `c2post2`. -/
theorem c2_claim_counterexample :
    (getUserFeed true none c2fetch false c2opt 5).savedCache = some [c2post1] ∧
    c2feed.videos = [c2post1, c2post2] ∧
    (getUserFeed true (some [c2post1]) c2fetch false c2optWide 5).posts = [c2post1] := by
  decide

/-- C2 (amended): on a feed-cache miss the pager applies the truncation and
filter predicates while fetching, and `saveFeedToCache` persists exactly
that collected truncated-and-filtered newest-first view (which is also the
returned view); a later run re-applies its predicates to this persisted
filtered view. -/
theorem c2_cache_persists_filtered_view :
    ∀ (fetch : String → ApiResult) (retryOn429 : Bool) (opt : FeedOpt)
      (fs : List Feed) (flast : Feed) (fuel : Nat),
    FetchChain fetch "0" (fs ++ [flast]) →
    (∀ f ∈ fs, (∀ v ∈ f.videos, opt.whilePred v = true) ∧ f.hasMore = true) →
    (flast.hasMore = false ∨ ∃ v ∈ flast.videos, opt.whilePred v = false) →
    fs.length < fuel →
    getUserFeed true none fetch retryOn429 opt fuel =
      ⟨((fs.map Feed.videos).flatten ++ flast.videos.takeWhile opt.whilePred).filter
          opt.filterPred,
       (((fs.map Feed.videos).flatten ++
           flast.videos.takeWhile opt.whilePred).filter opt.filterPred).length,
       some (((fs.map Feed.videos).flatten ++
           flast.videos.takeWhile opt.whilePred).filter opt.filterPred),
       true⟩ := by
  intro fetch retryOn429 opt fs flast fuel hchain hall hterm hfuel
  rw [getUserFeed]
  · rw [userFeedSinceInternal_chain fetch retryOn429 opt fs flast "0" fuel hchain hall
      hterm hfuel]
    simp
  · intro cached _ hc
    exact Option.noConfusion hc

/-- C2 witness: a one-page feed truncated at the second post — the returned
view and the persisted cache are both exactly `[c2post1]`. -/
theorem c2_cache_persists_filtered_view_witness :
    getUserFeed true none c2fetch false c2opt 1 =
      ⟨[c2post1], 1, some [c2post1], true⟩ :=
  c2_cache_persists_filtered_view c2fetch false c2opt [] c2feed 1
    ⟨by decide, trivial⟩ (by decide) (Or.inr (by decide)) (by decide)

/-! ## C5: rate limiter -/

/-- Projection facts for `advanceTicker`. -/
theorem advanceTicker_nextTick (R : Nat) (s : TickerState) (t : Nat) :
    (advanceTicker R s t).nextTick = max s.nextTick (t / R + 1) := rfl

theorem advanceTicker_firstToken (R : Nat) (s : TickerState) (t : Nat) :
    (advanceTicker R s t).firstToken = s.firstToken := rfl

theorem advanceTicker_buf_some (R : Nat) (s : TickerState) (t : Nat) (tau : Nat)
    (h : s.buf = some tau) : (advanceTicker R s t).buf = some tau := by
  simp only [advanceTicker, h]

theorem advanceTicker_buf_none (R : Nat) (s : TickerState) (t : Nat)
    (h : s.buf = none) :
    (advanceTicker R s t).buf =
      if s.nextTick * R ≤ t then some (s.nextTick * R) else none := by
  simp only [advanceTicker, h]

/-- Advancing the ticker to a later wall time preserves the invariant,
leaves the `first` token alone, and pushes the next-tick index beyond every
tick that already fired. -/
theorem advanceTicker_inv (R : Nat) (hR : 0 < R) (s : TickerState) (m now t : Nat)
    (hinv : TickerInv R s m now) (hnt : now ≤ t) :
    TickerInv R (advanceTicker R s t) m t ∧
    t / R + 1 ≤ (advanceTicker R s t).nextTick := by
  obtain ⟨h1, h2, h3⟩ := hinv
  have hmaxl : s.nextTick ≤ (advanceTicker R s t).nextTick := by
    rw [advanceTicker_nextTick]; exact Nat.le_max_left _ _
  have hmaxr : t / R + 1 ≤ (advanceTicker R s t).nextTick := by
    rw [advanceTicker_nextTick]; exact Nat.le_max_right _ _
  refine ⟨⟨le_trans h1 hmaxl, ?_, ?_⟩, hmaxr⟩
  · cases hbuf : s.buf with
    | some tau =>
        rw [advanceTicker_buf_some R s t tau hbuf]
        rw [hbuf] at h2
        simp only [Option.isSome_some, if_true] at h2 ⊢
        omega
    | none =>
        rw [advanceTicker_buf_none R s t hbuf]
        rw [hbuf] at h2
        simp only [Option.isSome_none, Bool.false_eq_true, if_false] at h2
        by_cases hle : s.nextTick * R ≤ t
        · have hdiv : s.nextTick ≤ t / R := (Nat.le_div_iff_mul_le hR).mpr hle
          rw [if_pos hle]
          simp only [Option.isSome_some, if_true]
          omega
        · rw [if_neg hle]
          simp only [Option.isSome_none, Bool.false_eq_true, if_false]
          omega
  · intro tau htau
    cases hbuf : s.buf with
    | some tau0 =>
        rw [advanceTicker_buf_some R s t tau0 hbuf] at htau
        injection htau with hEq
        subst hEq
        obtain ⟨ha, hb⟩ := h3 tau0 hbuf
        exact ⟨ha, le_trans hb hnt⟩
    | none =>
        rw [advanceTicker_buf_none R s t hbuf] at htau
        rw [hbuf] at h2
        simp only [Option.isSome_none] at h2
        by_cases hle : s.nextTick * R ≤ t
        · rw [if_pos hle] at htau
          cases htau
          exact ⟨Nat.mul_le_mul_right R (by omega), hle⟩
        · rw [if_neg hle] at htau
          cases htau

/-- One serialised non-first `Wait`: the return time is at least
`(m + 1) * R` (the call consumes a tick that fired no earlier than that),
and the invariant carries to the successor state at the return time. -/
theorem limiterWait_step (R : Nat) (hR : 0 < R) (s : TickerState) (m now t : Nat)
    (hinv : TickerInv R s m now) (hfirst : s.firstToken = false) (hnt : now ≤ t) :
    (m + 1) * R ≤ (limiterWait R s t).1 ∧
    TickerInv R (limiterWait R s t).2 (m + 1) (limiterWait R s t).1 ∧
    (limiterWait R s t).2.firstToken = false := by
  obtain ⟨⟨h1, h2, h3⟩, hdiv⟩ := advanceTicker_inv R hR s m now t hinv hnt
  have hf : (advanceTicker R s t).firstToken = false :=
    (advanceTicker_firstToken R s t).trans hfirst
  rw [limiterWait]
  simp only [hf, Bool.false_eq_true, if_false]
  cases hbuf : (advanceTicker R s t).buf with
  | some tau =>
      rw [hbuf] at h2 h3
      simp only [Option.isSome_some, if_true] at h2
      obtain ⟨ha, hb⟩ := h3 tau rfl
      simp only
      refine ⟨le_trans ha hb, ⟨h1, ?_, ?_⟩, trivial⟩
      · simp only [Option.isSome_none, Bool.false_eq_true, if_false]
        omega
      · intro tau2 htau2
        cases htau2
  | none =>
      rw [hbuf] at h2 h3
      simp only [Option.isSome_none, Bool.false_eq_true, if_false] at h2
      have hgt : t < (advanceTicker R s t).nextTick * R := by
        have hmod := Nat.div_add_mod t R
        have hmlt := Nat.mod_lt t hR
        nlinarith
      simp only
      refine ⟨?_, ⟨?_, ?_, ?_⟩, trivial⟩
      · show (m + 1) * R ≤ (advanceTicker R s t).nextTick * R
        exact Nat.mul_le_mul_right R (by omega)
      · show 1 ≤ (advanceTicker R s t).nextTick + 1
        omega
      · simp only [hbuf, Option.isSome_none, Bool.false_eq_true, if_false]
        omega
      · intro tau2 htau2
        simp only [hbuf] at htau2
        cases htau2

/-- Serialised waits after the first consume distinct, increasingly late
ticks: the `k`-th return time (0-indexed) is at least `(m + k + 1) * R`. -/
theorem runWaits_rate (R : Nat) (hR : 0 < R) :
    ∀ (ts : List Nat) (s : TickerState) (m now : Nat),
    TickerInv R s m now → s.firstToken = false →
    SerializedFrom R s now ts →
    ∀ k, k < ts.length → (m + k + 1) * R ≤ (runWaits R s ts).getD k 0 := by
  intro ts
  induction ts with
  | nil => intro s m now _ _ _ k hk; simp at hk
  | cons t ts ih =>
      intro s m now hinv hfirst hser k hk
      obtain ⟨hnt, hser'⟩ := hser
      obtain ⟨hret, hinv', hfirst'⟩ := limiterWait_step R hR s m now t hinv hfirst hnt
      rw [runWaits]
      cases k with
      | zero => simpa using hret
      | succ k =>
          have heq : m + (k + 1) + 1 = m + 1 + k + 1 := by omega
          rw [heq]
          exact ih (limiterWait R s t).2 (m + 1) (limiterWait R s t).1 hinv' hfirst'
            hser' k (by simpa using hk)

/-- C5 counterexample: with R = 4 and serialised calls at times
0, 1, 9, 10, the returns are 0, 4, 9, 12 — the third and fourth successful
acquires are only 3 < R apart (the acquire at time 9 consumed the tick
buffered at time 8, and the next tick fired at 12): consecutive successful
acquires are not always separated by at least R. -/
theorem c5_claim_counterexample :
    runWaits 4 limiterInit [0, 1, 9, 10] = [0, 4, 9, 12] ∧
    SerializedFrom 4 limiterInit 0 [0, 1, 9, 10] ∧
    12 - 9 < 4 := by
  exact ⟨by decide, ⟨by decide, by decide, by decide, by decide, trivial⟩, by decide⟩

/-- C5 (amended): the first acquire after initialisation returns at its
call time (immediately); each later acquire consumes a distinct tick of the
R-periodic ticker, so the k-th subsequent acquire (1-indexed) returns no
earlier than k·R after initialisation — bounding the long-run rate by one
call per R — but, as the counterexample shows, two consecutive acquires can
return less than R apart. -/
theorem c5_rate_limiter :
    ∀ (R t0 : Nat) (ts : List Nat), 0 < R →
    SerializedFrom R limiterInit 0 (t0 :: ts) →
    (runWaits R limiterInit (t0 :: ts)).getD 0 0 = t0 ∧
    (∀ k, k < ts.length →
      (k + 1) * R ≤ (runWaits R limiterInit (t0 :: ts)).getD (k + 1) 0) := by
  intro R t0 ts hR hser
  obtain ⟨-, hser'⟩ := hser
  constructor
  · rfl
  · intro k hk
    have hinv0 : TickerInv R (limiterWait R limiterInit t0).2 0
        (limiterWait R limiterInit t0).1 := by
      have hbase : TickerInv R limiterInit 0 0 := by
        refine ⟨le_refl 1, by simp [limiterInit], ?_⟩
        intro τ hτ
        simp [limiterInit] at hτ
      obtain ⟨hadv, -⟩ := advanceTicker_inv R hR limiterInit 0 0 t0 hbase (by omega)
      obtain ⟨ha1, ha2, ha3⟩ := hadv
      exact ⟨ha1, ha2, ha3⟩
    have hfirst0 : (limiterWait R limiterInit t0).2.firstToken = false := rfl
    have hrate := runWaits_rate R hR ts (limiterWait R limiterInit t0).2 0
      (limiterWait R limiterInit t0).1 hinv0 hfirst0 hser' k hk
    have hstep : runWaits R limiterInit (t0 :: ts) =
        (limiterWait R limiterInit t0).1 ::
          runWaits R (limiterWait R limiterInit t0).2 ts := rfl
    rw [hstep]
    simpa using hrate

/-- C5 witness: R = 4, serialised calls at 0, 1, 9, 10 — the first acquire
returns at 0, and the k-th subsequent acquire returns no earlier than
4·(k+1). -/
theorem c5_rate_limiter_witness :
    (runWaits 4 limiterInit (0 :: [1, 9, 10])).getD 0 0 = 0 ∧
    (∀ k, k < [1, 9, 10].length →
      (k + 1) * 4 ≤ (runWaits 4 limiterInit (0 :: [1, 9, 10])).getD (k + 1) 0) :=
  c5_rate_limiter 4 0 [1, 9, 10] (by decide)
    ⟨by decide, by decide, by decide, by decide, trivial⟩

end Tikwm
